import Mathlib

/-!
Verification of the training/validation orchestration in
`src/depth_anything_v2/train.py` (repository SegDefDepth).

The Python source is shallowly embedded below.  Stateful loops become
explicit state passing (folds over the batch / epoch lists), scalar
training quantities become rationals, the checkpoint directory becomes a
finite map from file names to file contents, and external collaborators
(the metric accumulator's formulas, the model) are abstracted exactly at
the interface the training script uses.
-/

namespace SegDefDepth

/-- Embedding of `make_divisible(val, divisor=14)` (train.py line 58):
`return val - (val % divisor)`.  The Python call sites always use the
default divisor 14; here the divisor is passed explicitly. -/
def make_divisible (val divisor : ℕ) : ℕ :=
  val - val % divisor

/-- The per-class weight the `match seg_label.name` block of
`Trainer.__init__` (train.py lines 106-120) appends for a label name:
`some w` when one of the six recognized names matches (so `w` is
appended), `none` when no case matches (Python's `match` with no
matching case does nothing, so nothing is appended). -/
def classWeightFor (name : String) : Option ℚ :=
  if name = "BACKGROUND" then some (1/10)
  else if name = "HEAD" then some (1/10)
  else if name = "BASEPLATE" then some (1/10)
  else if name = "PREVIOUS_PART" then some (1/10)
  else if name = "CURRENT_PART" then some (1/2)
  else if name = "WELD_FLASH" then some (1/10)
  else none

/-- The `class_weights` list built by the `for seg_label in SegLabels`
loop of `Trainer.__init__`: the recognized labels' weights in enum
order, skipping unrecognized members. -/
def buildClassWeights (segLabels : List String) : List ℚ :=
  segLabels.filterMap classWeightFor

/-- The member names of the `SegLabels` enum as used by `train.py`'s
weight-assignment match block (the enum itself is declared in
`SegDepthInference`, outside the embedded file; these are the six names
the match block recognizes). -/
def segLabelNames : List String :=
  ["BACKGROUND", "HEAD", "BASEPLATE", "PREVIOUS_PART", "CURRENT_PART", "WELD_FLASH"]

/-- The fields of the `Trainer` object that the verified claims are
about, as set by `Trainer.__init__` (train.py lines 62-127). -/
structure TrainerInit where
  img_h : ℕ
  img_w : ℕ
  num_classes : ℕ
  class_weights : List ℚ
  metric_nclass : ℕ
  best_pred : ℚ
  patience : ℕ
  delta : ℚ
  deriving Repr, DecidableEq

/-- Embedding of `Trainer.__init__` (train.py lines 62-127).
`trainClasses` is the dataset adapter's reported class list
(`trainset.classes`), `segLabels` the member names of the `SegLabels`
enum.  The only exception raised at construction time is the
`ValueError` for an unrecognized dataset name (line 80); the class
weight vector is built from `segLabels` alone and is never compared
with `trainClasses`. -/
def Trainer.construct (dataset : String) (trainClasses segLabels : List String) :
    Except String TrainerInit :=
  if dataset = "nyu" then
    Except.ok
      { img_h := make_divisible 480 14
        img_w := make_divisible 640 14
        num_classes := trainClasses.length
        class_weights := buildClassWeights segLabels
        metric_nclass := trainClasses.length
        best_pred := -1
        patience := 10
        delta := 1/100 }
  else if dataset = "ml4ded" then
    Except.ok
      { img_h := make_divisible 1072 14
        img_w := make_divisible 608 14
        num_classes := trainClasses.length
        class_weights := buildClassWeights segLabels
        metric_nclass := trainClasses.length
        best_pred := -1
        patience := 10
        delta := 1/100 }
  else
    Except.error ("Unknown dataset " ++ dataset)

/-- State of the early-stopping policy: recorded best score, patience
counter and the terminal stop flag, together with the construction
parameters (patience, delta). -/
structure EarlyStopping where
  patience : ℕ
  delta : ℚ
  best : Option ℚ
  counter : ℕ
  early_stop : Bool
  deriving Repr, DecidableEq

/-- Modelled from the spec: the class `EarlyStopping` lives in
`util/early_stopping.py`, which is not among the sources; only its
construction (train.py line 66) and per-epoch invocation (line 165) are.
Spec section 4.4: on each observation, if no prior best is recorded, or
the new score exceeds the recorded best by more than delta, record the
new best, reset the patience counter to 0 and remain RUNNING; else
increment the counter and transition to STOPPED once the counter exceeds
the patience. -/
def EarlyStopping.observe (s : EarlyStopping) (score : ℚ) : EarlyStopping :=
  match s.best with
  | none => { s with best := some score, counter := 0 }
  | some b =>
      if score > b + s.delta then
        { s with best := some score, counter := 0 }
      else
        { s with counter := s.counter + 1,
                 early_stop := s.early_stop || decide (s.counter + 1 > s.patience) }

/-- A freshly constructed early stopper (`EarlyStopping(patience=p, delta=d)`):
no best recorded, counter 0, not stopped. -/
def EarlyStopping.init (p : ℕ) (d : ℚ) : EarlyStopping :=
  { patience := p, delta := d, best := none, counter := 0, early_stop := false }

/-- Feeding a sequence of fitness scores to the early stopper, one per
epoch, as `Trainer.train` does at line 165. -/
def EarlyStopping.run (s : EarlyStopping) (scores : List ℚ) : EarlyStopping :=
  scores.foldl EarlyStopping.observe s

/-- The model as `save_checkpoint` sees it: a trainable segmentation head
and a frozen backbone, each with a serializable parameter state.  Only
`seg_head` is ever passed to `torch.save` (train.py line 211). -/
structure Model (α : Type) where
  seg_head : α
  backbone : α

/-- The path of the fixed "latest" checkpoint file,
`os.path.join(directory, "dinov2_seg.pth")` (train.py lines 209-210). -/
def latestName (dir : String) : String :=
  dir ++ "/" ++ "dinov2_seg.pth"

/-- The path of the fixed "best" checkpoint file,
`os.path.join(directory, "dinov2_seg_best_model.pth")` (train.py lines 213-214). -/
def bestName (dir : String) : String :=
  dir ++ "/" ++ "dinov2_seg_best_model.pth"

/-- Embedding of `save_checkpoint(model, args, is_best)` (train.py lines
204-215) acting on a file system modelled as a map from file names to
file contents.  `torch.save(model.seg_head.state_dict(), filename)`
writes the head parameters under the "latest" name; when `is_best`,
`shutil.copyfile` duplicates the just-written "latest" file under the
"best" name (so the copy's content is the "latest" content at that
moment). -/
def save_checkpoint {α : Type} (fs : String → Option α) (model : Model α)
    (dir : String) (is_best : Bool) : String → Option α :=
  let fs1 : String → Option α := fun n => if n = latestName dir then some model.seg_head else fs n
  if is_best then
    fun n => if n = bestName dir then fs1 (latestName dir) else fs1 n
  else
    fs1

/-- The mutable state `Trainer.validation` acts on: the stored best
fitness score (`self.best_pred`), the checkpoint directory contents, and
the metric accumulator's state.  The accumulator (`SegmentationMetric`,
an external collaborator) is modelled by the complete sequence of
`(outputs, target)` update batches it has received — `update` appends
and nothing ever resets it — with its `get()` readings abstracted as
functions of that sequence. -/
structure ValState (α β : Type) where
  best_pred : ℚ
  fs : String → Option α
  metric : List β

/-- Embedding of `Trainer.validation` (train.py lines 170-201).
`batches` are this epoch's validation batches; `pixAccF` and `mIoUF`
abstract the accumulator's `get()` readings (re-read after every batch;
only the reading after the last update is used).  The fitness score
`new_pred = (pixAcc + mIoU) / 2` is compared against `self.best_pred`;
on strict improvement `is_best` is set and `self.best_pred` replaced;
`save_checkpoint` always runs.  The Python function body ends without a
`return` statement, so its return value — the second component — is
`none` (Python's `None`), whatever was computed. -/
def Trainer.validation {α β : Type} (pixAccF mIoUF : List β → ℚ) (model : Model α)
    (dir : String) (batches : List β) (st : ValState α β) :
    ValState α β × Option ℚ :=
  let metric := st.metric ++ batches
  let pixAcc := pixAccF metric
  let mIoU := mIoUF metric
  let new_pred := (pixAcc + mIoU) / 2
  let is_best := decide (new_pred > st.best_pred)
  let best := if new_pred > st.best_pred then new_pred else st.best_pred
  (⟨best, save_checkpoint st.fs model dir is_best, metric⟩, none)

/-- Running `Trainer.validation` once per epoch over a list of per-epoch
validation batch lists, threading the trainer state (the metric
accumulator is constructed once in `Trainer.__init__` and shared across
epochs). -/
def runValidations {α β : Type} (pixAccF mIoUF : List β → ℚ) (model : Model α)
    (dir : String) (st : ValState α β) (epochs : List (List β)) : ValState α β :=
  epochs.foldl (fun s b => (Trainer.validation pixAccF mIoUF model dir b s).1) st

/-- A scalar record handed to the logging sink:
`writer.add_scalar(tag, value, step)`. -/
structure ScalarLogEvent where
  tag : String
  value : ℚ
  step : ℕ
  deriving Repr, DecidableEq

/-- One iteration of the inner training loop of `Trainer.train`
(train.py lines 137-153), restricted to the state the running-loss log
touches: the global iteration counter (incremented first, line 138), the
running loss accumulator `avg_loss` (line 148), and the scalar records
emitted so far.  When `iteration % 100 == 0` the accumulator divided by
100 is emitted tagged "training loss" at the current iteration and the
accumulator is reset to 0 (lines 150-153). -/
def trainStep (st : ℕ × ℚ × List ScalarLogEvent) (loss : ℚ) :
    ℕ × ℚ × List ScalarLogEvent :=
  let iteration := st.1 + 1
  let avg_loss := st.2.1 + loss
  if iteration % 100 = 0 then
    (iteration, 0, st.2.2 ++ [⟨"training loss", avg_loss / 100, iteration⟩])
  else
    (iteration, avg_loss, st.2.2)

/-- The training loop run over a sequence of per-iteration losses from
the start of `Trainer.train` (`iteration = 0`, `avg_loss = 0`, nothing
logged). -/
def runTrain (losses : List ℚ) : ℕ × ℚ × List ScalarLogEvent :=
  losses.foldl trainStep (0, 0, [])

/-- The scalar records the training loop is expected to have emitted
after the given losses: one per complete block of 100 iterations, whose
value is that block's loss sum divided by 100, tagged at the iteration
closing the block. -/
def trainLog (losses : List ℚ) : List ScalarLogEvent :=
  (List.range (losses.length / 100)).map (fun j =>
    ⟨"training loss", ((losses.drop (100 * j)).take 100).sum / 100, 100 * (j + 1)⟩)

/-- The epoch loop of `Trainer.train` (train.py lines 132-168):
`for i in range(args.epochs)`, run the epoch body (training batches,
then `validation`, which ends in the epoch's checkpoint write), then
consult the early stopper and `break` when `early_stop` is set.
`isStopped i` abstracts the value of `self.early_stopper.early_stop`
after epoch `i`'s score observation; the returned list is the sequence
of epoch indices whose bodies were executed to completion. -/
def epochLoop (isStopped : ℕ → Bool) : ℕ → ℕ → List ℕ
  | 0, _ => []
  | n + 1, i => i :: (if isStopped i then [] else epochLoop isStopped n (i + 1))

/-- The epoch loop started from epoch index 0 with budget
`args.epochs`. -/
def trainEpochs (epochs : ℕ) (isStopped : ℕ → Bool) : List ℕ :=
  epochLoop isStopped epochs 0

/-- The best-score / is-best trace of repeated `Trainer.validation`
calls (train.py lines 198-200), abstracted over the per-epoch fitness
scores: starting from stored best `b`, return the final stored best and
the per-epoch `is_best` flags (`new_pred > self.best_pred`, with
`self.best_pred` replaced on strict improvement). -/
def runBest (b : ℚ) : List ℚ → ℚ × List Bool
  | [] => (b, [])
  | s :: rest =>
      let r := runBest (if s > b then s else b) rest
      (r.1, decide (s > b) :: r.2)

/-! ### Helper lemmas -/

lemma latestName_ne_bestName (dir : String) : latestName dir ≠ bestName dir := by
  intro h
  have hlen := congrArg String.length h
  simp only [latestName, bestName, String.length_append] at hlen
  have h1 : ("dinov2_seg.pth" : String).length = 14 := by decide
  have h2 : ("dinov2_seg_best_model.pth" : String).length = 25 := by decide
  omega

lemma length_filterMap_eq_countP {α β : Type} (f : α → Option β) (l : List α) :
    (l.filterMap f).length = l.countP (fun a => (f a).isSome) := by
  induction l with
  | nil => rfl
  | cons a l ih =>
      cases h : f a <;>
        simp [List.filterMap_cons, h, List.countP_cons, ih]

lemma ite_gt_eq_max (b s : ℚ) : (if s > b then s else b) = max b s := by
  rcases le_or_lt s b with h | h
  · rw [if_neg (not_lt.mpr h), max_eq_left h]
  · rw [if_pos h, max_eq_right h.le]

lemma foldl_max_lt_iff (c : ℚ) (l : List ℚ) :
    ∀ b : ℚ, l.foldl max b < c ↔ b < c ∧ ∀ x ∈ l, x < c := by
  induction l with
  | nil => intro b; simp
  | cons a l ih =>
      intro b
      rw [List.foldl_cons, ih (max b a)]
      simp only [max_lt_iff, List.mem_cons]
      constructor
      · rintro ⟨⟨hb, ha⟩, hl⟩
        exact ⟨hb, fun x hx => hx.elim (fun hxa => hxa ▸ ha) (hl x)⟩
      · rintro ⟨hb, hl⟩
        exact ⟨⟨hb, hl a (Or.inl rfl)⟩, fun x hx => hl x (Or.inr hx)⟩

lemma runBest_fst (l : List ℚ) : ∀ b : ℚ, (runBest b l).1 = l.foldl max b := by
  induction l with
  | nil => intro b; rfl
  | cons s rest ih =>
      intro b
      rw [List.foldl_cons, ← ite_gt_eq_max b s]
      exact ih (if s > b then s else b)

lemma runBest_length (l : List ℚ) : ∀ b : ℚ, (runBest b l).2.length = l.length := by
  induction l with
  | nil => intro b; rfl
  | cons s rest ih =>
      intro b
      simp only [runBest, List.length_cons]
      rw [ih (if s > b then s else b)]

lemma runBest_get? (l : List ℚ) :
    ∀ (b : ℚ) (k : ℕ) (hk : k < l.length),
      (runBest b l).2[k]? = some (decide ((l.take k).foldl max b < l.get ⟨k, hk⟩)) := by
  induction l with
  | nil => intro b k hk; exact absurd hk (by simp)
  | cons s rest ih =>
      intro b k hk
      cases k with
      | zero => simp [runBest]
      | succ k =>
          have hk' : k < rest.length := Nat.lt_of_succ_lt_succ hk
          simp only [runBest, List.take_succ_cons, List.foldl_cons, List.get_cons_succ,
            List.getElem?_cons_succ]
          rw [ih (if s > b then s else b) k hk', ite_gt_eq_max]

lemma block_append (l : List ℚ) (x : ℚ) (j : ℕ) (hj : 100 * j + 100 ≤ l.length) :
    ((l ++ [x]).drop (100 * j)).take 100 = (l.drop (100 * j)).take 100 := by
  rw [List.drop_append_of_le_length (by omega)]
  exact List.take_append_of_le_length (by rw [List.length_drop]; omega)

lemma runTrain_characterization (losses : List ℚ) :
    runTrain losses
      = (losses.length, (losses.drop (100 * (losses.length / 100))).sum,
          trainLog losses) := by
  induction losses using List.reverseRecOn with
  | nil => rfl
  | append_singleton l x ih =>
      have hmul_le : 100 * (l.length / 100) ≤ l.length := by omega
      have hrun : runTrain (l ++ [x]) = trainStep (runTrain l) x := by
        simp [runTrain, List.foldl_append]
      rw [hrun, ih]
      simp only [trainStep, List.length_append, List.length_singleton]
      by_cases h : (l.length + 1) % 100 = 0
      · rw [if_pos h]
        have hdiv : (l.length + 1) / 100 = l.length / 100 + 1 := by omega
        have hmod : l.length % 100 = 99 := by omega
        refine congrArg (Prod.mk _) ?_
        refine congrArg₂ Prod.mk ?_ ?_
        · rw [hdiv]
          have : 100 * (l.length / 100 + 1) = l.length + 1 := by omega
          rw [this, List.drop_eq_nil_of_le (by simp), List.sum_nil]
        · unfold trainLog
          simp only [List.length_append, List.length_singleton, hdiv,
            List.range_succ, List.map_append, List.map_cons, List.map_nil]
          refine congrArg₂ List.append ?_ ?_
          · refine List.map_congr_left ?_
            intro j hj
            have hjlt : j < l.length / 100 := List.mem_range.mp hj
            rw [block_append l x j (by omega)]
          · have hstep : 100 * (l.length / 100 + 1) = l.length + 1 := by omega
            have hd : (l ++ [x]).drop (100 * (l.length / 100))
                = l.drop (100 * (l.length / 100)) ++ [x] :=
              List.drop_append_of_le_length hmul_le
            have hlen99 : (l.drop (100 * (l.length / 100))).length = 99 := by
              rw [List.length_drop]; omega
            have ht : ((l ++ [x]).drop (100 * (l.length / 100))).take 100
                = l.drop (100 * (l.length / 100)) ++ [x] := by
              rw [hd, List.take_append_eq_append_take, hlen99,
                List.take_of_length_le (by rw [hlen99]; omega)]
              simp
            rw [hstep, ht, List.sum_append, List.sum_singleton]
      · rw [if_neg h]
        have hdiv : (l.length + 1) / 100 = l.length / 100 := by omega
        refine congrArg (Prod.mk _) ?_
        refine congrArg₂ Prod.mk ?_ ?_
        · rw [hdiv, List.drop_append_of_le_length hmul_le, List.sum_append,
            List.sum_singleton]
        · unfold trainLog
          simp only [List.length_append, List.length_singleton, hdiv]
          refine List.map_congr_left ?_
          intro j hj
          have hjlt : j < l.length / 100 := List.mem_range.mp hj
          rw [block_append l x j (by omega)]

/-! ### Claims -/

/-- C8: for every nonnegative integer dimension `v` and patch size 14,
`make_divisible v` is the largest value ≤ `v` that is an exact multiple
of 14; in particular the target dimensions (1072, 608) are adjusted to
(1064, 602). -/
theorem C8_make_divisible_rounds_down (v : ℕ) :
    14 ∣ make_divisible v 14
    ∧ make_divisible v 14 ≤ v
    ∧ (∀ m : ℕ, 14 ∣ m → m ≤ v → m ≤ make_divisible v 14)
    ∧ make_divisible 1072 14 = 1064 ∧ make_divisible 608 14 = 602 := by
  refine ⟨⟨v / 14, ?_⟩, ?_, ?_, by decide, by decide⟩
  · unfold make_divisible; omega
  · unfold make_divisible; omega
  · rintro m ⟨t, rfl⟩ hm
    unfold make_divisible; omega

/-- Witness for C8 at `v = 1072`, `m = 1064`. -/
theorem C8_witness :
    (14 ∣ 1064) ∧ 1064 ≤ 1072 ∧ 1064 ≤ make_divisible 1072 14 :=
  ⟨by decide, by decide,
    (C8_make_divisible_rounds_down 1072).2.2.1 1064 (by decide) (by decide)⟩

/-- C5: `save_checkpoint` with `is_best = false` creates/updates only the
fixed "latest" file; with `is_best = true` it additionally
creates/updates the fixed "best" file, whose content equals the "latest"
file's content at that moment; and in both cases the persisted content
is the trainable head's parameters — two models with the same `seg_head`
produce identical checkpoint contents whatever their backbones. -/
theorem C5_save_checkpoint_files {α : Type} (fs : String → Option α) (m : Model α)
    (dir : String) :
    (save_checkpoint fs m dir false (latestName dir) = some m.seg_head
      ∧ ∀ n, n ≠ latestName dir → save_checkpoint fs m dir false n = fs n)
    ∧ (save_checkpoint fs m dir true (latestName dir) = some m.seg_head
      ∧ save_checkpoint fs m dir true (bestName dir)
          = save_checkpoint fs m dir true (latestName dir)
      ∧ ∀ n, n ≠ latestName dir → n ≠ bestName dir →
          save_checkpoint fs m dir true n = fs n)
    ∧ (∀ m' : Model α, m'.seg_head = m.seg_head →
        ∀ b : Bool, save_checkpoint fs m' dir b = save_checkpoint fs m dir b) := by
  have hne := latestName_ne_bestName dir
  refine ⟨⟨?_, ?_⟩, ⟨?_, ?_, ?_⟩, ?_⟩
  · simp [save_checkpoint]
  · intro n hn; simp [save_checkpoint, hn]
  · simp [save_checkpoint, hne]
  · simp [save_checkpoint, hne]
  · intro n hn1 hn2; simp [save_checkpoint, hn1, hn2]
  · intro m' hm b; simp [save_checkpoint, hm]

/-- Witness for C5: concrete file system, model and directory; a file
other than the two fixed names is untouched. -/
theorem C5_witness :
    save_checkpoint (fun _ => (none : Option ℕ)) ⟨5, 7⟩ "ckpt" false "other" = none :=
  (C5_save_checkpoint_files (fun _ => (none : Option ℕ)) ⟨5, 7⟩ "ckpt").1.2
    "other" (by decide)

/-- C3 counterexample: constructing the Trainer with a dataset adapter
reporting 5 classes while the `SegLabels` enum has its six members
SUCCEEDS (no configuration error) and yields a class weight vector of
length 6 ≠ 5 — the mismatch is not rejected at construction time. -/
theorem C3_counterexample :
    (Trainer.construct "ml4ded" ["c0", "c1", "c2", "c3", "c4"] segLabelNames).toOption.map
        (fun t => t.class_weights.length) = some 6
    ∧ (["c0", "c1", "c2", "c3", "c4"] : List String).length = 5 := by
  exact ⟨by decide, by decide⟩

/-- C3 amended: the class weight vector's length equals the number of
`SegLabels` members whose name is one of the six recognized labels —
a quantity independent of the dataset adapter's reported class count —
and construction with a recognized dataset name always succeeds, with no
check relating the two counts (a mismatch is not a construction-time
error). -/
theorem C3_weights_from_seglabels (dataset : String) (classes segLabels : List String)
    (h : dataset = "nyu" ∨ dataset = "ml4ded") :
    ∃ t, Trainer.construct dataset classes segLabels = Except.ok t
      ∧ t.class_weights.length = segLabels.countP (fun n => (classWeightFor n).isSome)
      ∧ t.num_classes = classes.length := by
  rcases h with h | h <;> subst h <;>
    refine ⟨_, rfl, length_filterMap_eq_countP _ _, rfl⟩

/-- Witness for C3's amended theorem at the concrete dataset "ml4ded",
five dataset classes and the repository's six `SegLabels` names. -/
theorem C3_witness :
    ∃ t, Trainer.construct "ml4ded" ["c0", "c1", "c2", "c3", "c4"] segLabelNames
        = Except.ok t
      ∧ t.class_weights.length
          = segLabelNames.countP (fun n => (classWeightFor n).isSome)
      ∧ t.num_classes = (["c0", "c1", "c2", "c3", "c4"] : List String).length :=
  C3_weights_from_seglabels "ml4ded" ["c0", "c1", "c2", "c3", "c4"] segLabelNames
    (Or.inr rfl)

/-- C1: the fitness score `(pixAcc + mIoU) / 2` is computed and stored
into `best_pred`, but `Trainer.validation` has no `return` statement, so
the value handed back to `Trainer.train` — and hence to the early
stopper — is `none` (Python's `None`), not the fitness score.  Evaluated
at the failing input `pixAcc = 9/10`, `mIoU = 7/10` on a first epoch:
the computed mean is `4/5`, yet the returned value is `none`. -/
theorem C1_validation_returns_none :
    (Trainer.validation (fun _ => (9 : ℚ)/10) (fun _ => (7 : ℚ)/10) (⟨0, 0⟩ : Model ℕ)
        "ckpt" [()] ⟨-1, fun _ => none, []⟩).2 = none
    ∧ (Trainer.validation (fun _ => (9 : ℚ)/10) (fun _ => (7 : ℚ)/10) (⟨0, 0⟩ : Model ℕ)
        "ckpt" [()] ⟨-1, fun _ => none, []⟩).1.best_pred = 4/5
    ∧ (Trainer.validation (fun _ => (9 : ℚ)/10) (fun _ => (7 : ℚ)/10) (⟨0, 0⟩ : Model ℕ)
        "ckpt" [()] ⟨-1, fun _ => none, []⟩).2 ≠ some (4/5) := by
  refine ⟨rfl, ?_, by simp [Trainer.validation]⟩
  norm_num [Trainer.validation]

/-- C10: on the first completed epoch, whenever pixel-accuracy and
mean-IoU are nonnegative, the fitness score exceeds the sentinel `-1`
stored by `Trainer.__init__`, so the comparison succeeds, the stored
best becomes the fitness score, and the "best" checkpoint file is
written with the head parameters — however low the score is. -/
theorem C10_first_epoch_writes_best {α β : Type} (pixAccF mIoUF : List β → ℚ)
    (m : Model α) (dir : String) (batches : List β) (fs0 : String → Option α)
    (hp : 0 ≤ pixAccF batches) (hm : 0 ≤ mIoUF batches) :
    (pixAccF batches + mIoUF batches) / 2 > -1
    ∧ (Trainer.validation pixAccF mIoUF m dir batches ⟨-1, fs0, []⟩).1.best_pred
        = (pixAccF batches + mIoUF batches) / 2
    ∧ (Trainer.validation pixAccF mIoUF m dir batches ⟨-1, fs0, []⟩).1.fs (bestName dir)
        = some m.seg_head := by
  have hgt : (pixAccF batches + mIoUF batches) / 2 > -1 := by
    have : (0 : ℚ) ≤ (pixAccF batches + mIoUF batches) / 2 := by positivity
    linarith
  have hnil : ([] : List β) ++ batches = batches := List.nil_append batches
  refine ⟨hgt, ?_, ?_⟩
  · simp only [Trainer.validation, hnil, if_pos hgt]
  · simp only [Trainer.validation, hnil, decide_eq_true hgt, save_checkpoint,
      if_pos rfl, if_neg (Ne.symm (latestName_ne_bestName dir))]
    simp

/-- Witness for C10: constant metric readings of 1/2, a trivial model
and an empty checkpoint directory. -/
theorem C10_witness :
    ((1 : ℚ)/2 + 1/2) / 2 > -1
    ∧ (Trainer.validation (fun _ => (1 : ℚ)/2) (fun _ => (1 : ℚ)/2) (⟨0, 0⟩ : Model ℕ)
        "ckpt" [()] ⟨-1, fun _ => none, []⟩).1.best_pred = ((1 : ℚ)/2 + 1/2) / 2
    ∧ (Trainer.validation (fun _ => (1 : ℚ)/2) (fun _ => (1 : ℚ)/2) (⟨0, 0⟩ : Model ℕ)
        "ckpt" [()] ⟨-1, fun _ => none, []⟩).1.fs (bestName "ckpt") = some 0 :=
  C10_first_epoch_writes_best (fun _ => (1 : ℚ)/2) (fun _ => (1 : ℚ)/2) ⟨0, 0⟩
    "ckpt" [()] (fun _ => none) (by norm_num) (by norm_num)

/-- C2 counterexample: a strictly increasing score sequence on which the
early-stopping policy DOES signal STOPPED.  With patience 2 and delta
1/100, the scores 0.5, 0.502, 0.504, 0.506 are strictly increasing, yet
none of the last three exceeds the recorded best (0.5) by more than the
delta, so the counter reaches 3 > 2 and the policy stops. -/
theorem C2_counterexample :
    List.Chain' (fun a b : ℚ => a < b) [1/2, 251/500, 63/125, 253/500]
    ∧ ((EarlyStopping.init 2 (1/100)).run [1/2, 251/500, 63/125, 253/500]).early_stop
        = true := by
  constructor
  · norm_num
  · norm_num [EarlyStopping.run, EarlyStopping.observe, EarlyStopping.init, List.foldl]

/-- C2 amended: on each observed score, if there is no prior best or the
score exceeds the recorded best by more than delta, the best is updated,
the counter resets to 0 and the state stays RUNNING; otherwise the
counter increments and the state becomes STOPPED once the counter
exceeds the patience.  For the score sequence [0.50, 0.50, 0.50, 0.50]
with patience 2 and delta 0.01, STOPPED is signalled by the 3rd repeated
non-improving score and not before (the stop flag is monotone, so it was
false at every earlier observation).  STOPPED is never signalled on a
score sequence each of whose scores exceeds its predecessor by more than
delta (the unqualified strictly-increasing version is refuted by
`C2_counterexample`). -/
theorem C2_early_stopping_policy :
    (∀ (s : EarlyStopping) (x : ℚ),
      (s.best = none →
        (s.observe x).best = some x ∧ (s.observe x).counter = 0
          ∧ (s.observe x).early_stop = s.early_stop)
      ∧ (∀ b : ℚ, s.best = some b → b + s.delta < x →
          (s.observe x).best = some x ∧ (s.observe x).counter = 0
            ∧ (s.observe x).early_stop = s.early_stop)
      ∧ (∀ b : ℚ, s.best = some b → ¬ b + s.delta < x →
          (s.observe x).counter = s.counter + 1
            ∧ ((s.observe x).early_stop = true
                ↔ (s.early_stop = true ∨ s.patience < s.counter + 1)))
      ∧ (s.early_stop = true → (s.observe x).early_stop = true))
    ∧ ((EarlyStopping.init 2 (1/100)).run [1/2, 1/2, 1/2]).early_stop = false
    ∧ ((EarlyStopping.init 2 (1/100)).run [1/2, 1/2, 1/2, 1/2]).early_stop = true
    ∧ (∀ (P : ℕ) (d : ℚ) (scores : List ℚ),
        List.Chain' (fun a b : ℚ => a + d < b) scores →
        ((EarlyStopping.init P d).run scores).early_stop = false) := by
  have hobs : ∀ (s : EarlyStopping) (x : ℚ),
      (s.best = none →
        (s.observe x).best = some x ∧ (s.observe x).counter = 0
          ∧ (s.observe x).early_stop = s.early_stop)
      ∧ (∀ b : ℚ, s.best = some b → b + s.delta < x →
          (s.observe x).best = some x ∧ (s.observe x).counter = 0
            ∧ (s.observe x).early_stop = s.early_stop)
      ∧ (∀ b : ℚ, s.best = some b → ¬ b + s.delta < x →
          (s.observe x).counter = s.counter + 1
            ∧ ((s.observe x).early_stop = true
                ↔ (s.early_stop = true ∨ s.patience < s.counter + 1)))
      ∧ (s.early_stop = true → (s.observe x).early_stop = true) := by
    intro s x
    refine ⟨?_, ?_, ?_, ?_⟩
    · intro hb; simp [EarlyStopping.observe, hb]
    · intro b hb himp; simp [EarlyStopping.observe, hb, himp]
    · intro b hb himp; simp [EarlyStopping.observe, hb, himp]
    · intro hs
      cases hb : s.best with
      | none => simp [EarlyStopping.observe, hb, hs]
      | some b =>
          by_cases himp : b + s.delta < x <;>
            simp [EarlyStopping.observe, hb, himp, hs]
  have hchain : ∀ (P : ℕ) (d : ℚ) (scores : List ℚ) (b : ℚ),
      List.Chain (fun a c : ℚ => a + d < c) b scores →
      (EarlyStopping.run ⟨P, d, some b, 0, false⟩ scores).early_stop = false := by
    intro P d scores
    induction scores with
    | nil => intro b _; rfl
    | cons x rest ih =>
        intro b hch
        cases hch with
        | cons hbx hrest =>
            have hstep : EarlyStopping.observe ⟨P, d, some b, 0, false⟩ x
                = ⟨P, d, some x, 0, false⟩ := by
              simp [EarlyStopping.observe, hbx]
            simp only [EarlyStopping.run, List.foldl_cons] at ih ⊢
            rw [hstep]
            exact ih x hrest
  refine ⟨hobs, ?_, ?_, ?_⟩
  · norm_num [EarlyStopping.run, EarlyStopping.observe, EarlyStopping.init, List.foldl]
  · norm_num [EarlyStopping.run, EarlyStopping.observe, EarlyStopping.init, List.foldl]
  · intro P d scores hch
    cases scores with
    | nil => rfl
    | cons x rest =>
        have hstep : EarlyStopping.observe (EarlyStopping.init P d) x
            = ⟨P, d, some x, 0, false⟩ := by
          simp [EarlyStopping.observe, EarlyStopping.init]
        simp only [EarlyStopping.run, List.foldl_cons]
        rw [hstep]
        exact hchain P d rest x hch

/-- Witness for C2's amended theorem: patience 2, delta 1/100, and a
two-score sequence whose second score beats the first by more than the
delta; the policy never stops. -/
theorem C2_witness :
    ((EarlyStopping.init 2 (1/100)).run [1/2, 3/5]).early_stop = false :=
  C2_early_stopping_policy.2.2.2 2 (1/100) [1/2, 3/5]
    (by norm_num [List.chain'_cons])

/-- C9: `Trainer.validation` only ever appends this epoch's batches to
the metric accumulator's update history — the accumulator is the one
object built in `Trainer.__init__` and nothing resets it — so after any
sequence of epochs the accumulator state the reported metrics are read
from is the concatenation of ALL epochs' validation batches, not the
last epoch's alone. -/
theorem C9_metric_accumulates_across_epochs {α β : Type}
    (pixAccF mIoUF : List β → ℚ) (m : Model α) (dir : String)
    (st : ValState α β) (epochs : List (List β)) :
    (∀ (batches : List β) (st' : ValState α β),
        ((Trainer.validation pixAccF mIoUF m dir batches st').1).metric
          = st'.metric ++ batches)
    ∧ (runValidations pixAccF mIoUF m dir st epochs).metric
        = st.metric ++ epochs.flatten := by
  constructor
  · intro batches st'; rfl
  · induction epochs generalizing st with
    | nil => simp [runValidations]
    | cons b rest ih =>
        simp only [runValidations, List.foldl_cons, List.flatten] at ih ⊢
        rw [ih]
        simp [Trainer.validation, List.append_assoc]

/-- C7: the epoch loop runs at most `N` epochs; with no early stop it
runs exactly the epochs `0 .. N-1`; and if the early stopper first
signals STOPPED after epoch `k < N`, exactly the epochs `0 .. k` run —
the loop halts right after epoch `k`'s body (which ends in its
checkpoint write) and starts no further epoch. -/
theorem C7_epoch_loop_halts (N : ℕ) (isStopped : ℕ → Bool) (hN : 1 ≤ N) :
    (trainEpochs N isStopped).length ≤ N
    ∧ ((∀ j, j < N → isStopped j = false) → trainEpochs N isStopped = List.range N)
    ∧ (∀ k, k < N → isStopped k = true → (∀ j, j < k → isStopped j = false) →
        trainEpochs N isStopped = List.range (k + 1)) := by
  have hlen : ∀ (n i : ℕ), (epochLoop isStopped n i).length ≤ n := by
    intro n
    induction n with
    | zero => intro i; simp [epochLoop]
    | succ n ih =>
        intro i
        simp only [epochLoop, List.length_cons]
        split
        · simp
        · exact Nat.succ_le_succ (ih (i + 1))
  have hall : ∀ (n i : ℕ), (∀ j, i ≤ j → j < i + n → isStopped j = false) →
      epochLoop isStopped n i = List.range' i n := by
    intro n
    induction n with
    | zero => intro i _; rfl
    | succ n ih =>
        intro i hj
        have h0 : isStopped i = false := hj i le_rfl (by omega)
        simp only [epochLoop, h0, Bool.false_eq_true, if_neg, List.range'_succ]
        rw [ih (i + 1) (fun j h1 h2 => hj j (by omega) (by omega))]
        simp
  have hfirst : ∀ (k n i : ℕ), k < n → isStopped (i + k) = true →
      (∀ j, j < k → isStopped (i + j) = false) →
      epochLoop isStopped n i = List.range' i (k + 1) := by
    intro k
    induction k with
    | zero =>
        intro n i hk hs _
        cases n with
        | zero => omega
        | succ n =>
            simp only [Nat.add_zero] at hs
            simp [epochLoop, hs, List.range'_succ]
    | succ k ih =>
        intro n i hk hs hj
        cases n with
        | zero => omega
        | succ n =>
            have h0 : isStopped i = false := by
              have := hj 0 (Nat.succ_pos k)
              simpa using this
            simp only [epochLoop, h0, Bool.false_eq_true, if_neg, List.range'_succ]
            rw [ih n (i + 1) (by omega) (by rw [← hs]; ring_nf)
              (fun j hjk => by rw [← hj (j + 1) (by omega)]; ring_nf)]
            simp [List.range'_succ]
  refine ⟨hlen N 0, ?_, ?_⟩
  · intro h
    rw [trainEpochs, hall N 0 (fun j h1 h2 => h j (by omega)), List.range_eq_range']
  · intro k hk hs hj
    rw [trainEpochs, hfirst k N 0 hk (by simpa using hs) (fun j hjk => by
      simpa using hj j hjk), List.range_eq_range']

/-- Witness for C7: budget 3, stopper signalling after epoch 1; exactly
epochs 0 and 1 run. -/
theorem C7_witness :
    (trainEpochs 3 (fun i => decide (i = 1))).length ≤ 3
    ∧ trainEpochs 3 (fun i => decide (i = 1)) = List.range 2 := by
  have h := C7_epoch_loop_halts 3 (fun i => decide (i = 1)) (by norm_num)
  exact ⟨h.1, h.2.2 1 (by norm_num) (by decide) (fun j hj => by
    interval_cases j <;> decide)⟩

/-- C4: `Trainer.__init__` initializes the best score to the sentinel
`-1`; each validation replaces the stored best exactly when the epoch's
fitness score is strictly greater (so the stored best never decreases),
and — the per-epoch fitness scores being nonnegative, as means of
pixel-accuracy and mean-IoU are — the best checkpoint copy is written in
an epoch if and only if that epoch's fitness score strictly exceeds
every previously observed fitness score. -/
theorem C4_best_score_policy {α β : Type} (pixAccF mIoUF : List β → ℚ)
    (m : Model α) (dir : String) (scores : List ℚ) (hnn : ∀ s ∈ scores, 0 ≤ s) :
    (∀ cs sl t, Trainer.construct "ml4ded" cs sl = Except.ok t → t.best_pred = -1)
    ∧ (∀ (st : ValState α β) (batches : List β),
        (Trainer.validation pixAccF mIoUF m dir batches st).1.best_pred
          = (if (pixAccF (st.metric ++ batches) + mIoUF (st.metric ++ batches)) / 2
                > st.best_pred
             then (pixAccF (st.metric ++ batches) + mIoUF (st.metric ++ batches)) / 2
             else st.best_pred)
        ∧ st.best_pred ≤ (Trainer.validation pixAccF mIoUF m dir batches st).1.best_pred
        ∧ (Trainer.validation pixAccF mIoUF m dir batches st).1.fs (bestName dir)
            = (if (pixAccF (st.metric ++ batches) + mIoUF (st.metric ++ batches)) / 2
                  > st.best_pred
               then some m.seg_head
               else st.fs (bestName dir)))
    ∧ (∀ (k : ℕ) (hk : k < scores.length),
        ((runBest (-1) scores).2[k]? = some true
          ↔ ∀ x ∈ scores.take k, x < scores.get ⟨k, hk⟩)) := by
  refine ⟨?_, ?_, ?_⟩
  · intro cs sl t h
    unfold Trainer.construct at h
    rw [if_neg (by decide), if_pos rfl] at h
    rw [← Except.ok.inj h]
  · intro st batches
    set p := (pixAccF (st.metric ++ batches) + mIoUF (st.metric ++ batches)) / 2 with hp
    refine ⟨rfl, ?_, ?_⟩
    · show st.best_pred ≤ if p > st.best_pred then p else st.best_pred
      split
      · exact le_of_lt (by assumption)
      · exact le_rfl
    · show save_checkpoint st.fs m dir (decide (p > st.best_pred)) (bestName dir) = _
      by_cases h : p > st.best_pred
      · rw [if_pos h]
        simp [save_checkpoint, h, latestName_ne_bestName dir]
      · rw [if_neg h]
        simp [save_checkpoint, h, (latestName_ne_bestName dir).symm]
  · intro k hk
    rw [runBest_get? scores (-1) k hk]
    simp only [Option.some.injEq, decide_eq_true_eq]
    rw [foldl_max_lt_iff]
    constructor
    · rintro ⟨_, h⟩
      exact h
    · intro h
      refine ⟨?_, h⟩
      have h0 : (0 : ℚ) ≤ scores.get ⟨k, hk⟩ := hnn _ (List.get_mem scores k hk)
      linarith

/-- Witness for C4 at the score sequence [1/2, 1/4, 3/4] and epoch
index 2: its score beats both earlier scores, so the is-best flag of
that epoch is true. -/
theorem C4_witness :
    (runBest (-1) [(1 : ℚ)/2, 1/4, 3/4]).2[2]? = some true := by
  have h := (@C4_best_score_policy ℕ Unit (fun _ => (0 : ℚ)) (fun _ => (0 : ℚ))
    ⟨0, 0⟩ "ckpt" [(1 : ℚ)/2, 1/4, 3/4]
    (by intro s hs; fin_cases hs <;> norm_num)).2.2 2 (by norm_num)
  refine h.mpr ?_
  intro x hx
  fin_cases hx <;> norm_num

/-- C6: the running-loss log fires exactly at the global iterations
divisible by 100 — the emitted records are one per complete block of 100
iterations, each tagged "training loss" at the iteration closing its
block, reporting the accumulator (that block's loss sum) divided by 100
— the accumulator is zero right after an emission (whenever the
iterations completed so far are a multiple of 100), and over 250
iterations the log fires exactly twice, at iterations 100 and 200. -/
theorem C6_logging_cadence (losses : List ℚ) :
    runTrain losses
      = (losses.length, (losses.drop (100 * (losses.length / 100))).sum,
          trainLog losses)
    ∧ (∀ e ∈ (runTrain losses).2.2,
        e.tag = "training loss" ∧ e.step % 100 = 0 ∧ 0 < e.step
          ∧ e.step ≤ losses.length)
    ∧ (100 ∣ losses.length → (runTrain losses).2.1 = 0)
    ∧ (losses.length = 250 →
        (runTrain losses).2.2.map ScalarLogEvent.step = [100, 200]
        ∧ (runTrain losses).2.2.map ScalarLogEvent.value
            = [(losses.take 100).sum / 100, ((losses.drop 100).take 100).sum / 100]) := by
  have hchar := runTrain_characterization losses
  refine ⟨hchar, ?_, ?_, ?_⟩
  · intro e he
    rw [hchar] at he
    simp only [trainLog, List.mem_map, List.mem_range] at he
    obtain ⟨j, hj, rfl⟩ := he
    refine ⟨rfl, by simp [Nat.mul_mod_right], by positivity, ?_⟩
    have : j + 1 ≤ losses.length / 100 := hj
    calc 100 * (j + 1) ≤ 100 * (losses.length / 100) := by omega
      _ ≤ losses.length := by omega
  · intro hdvd
    rw [hchar]
    have : 100 * (losses.length / 100) = losses.length := by omega
    rw [this]
    simp
  · intro h250
    rw [hchar]
    simp only [trainLog, h250]
    norm_num [List.range_succ]

/-- Witness for C6 at a concrete 250-iteration loss sequence: the log
fires exactly at iterations 100 and 200. -/
theorem C6_witness :
    (List.replicate 250 (1 : ℚ)).length = 250
    ∧ (runTrain (List.replicate 250 (1 : ℚ))).2.2.map ScalarLogEvent.step
        = [100, 200] :=
  ⟨List.length_replicate 250 1,
    ((C6_logging_cadence (List.replicate 250 (1 : ℚ))).2.2.2
      (List.length_replicate 250 1)).1⟩

end SegDefDepth
